import Mathlib

/-!
Verification development for the privy-support-wagus repository.

The repository is a React single-page app (src/pages/PoolBridge.tsx,
src/lib/solanaTransactionHelper.ts, src/hooks/useAuth.ts).  The pure logic of
the functions the claims are about is shallowly embedded below:

* TypeScript strings are modelled as Lean `String` (or `List Char` where the
  source manipulates the string character-wise);
* the array of diagnostic log entries is a `List LogEntry` and the pure state
  updater passed to React `setLogEntries` inside `appendLog` is the Lean
  function `appendLog` (ambient values `Date.now()`/`toISOString()` and the
  log-sequence counter are passed in as explicit `timestamp`/`newId`
  arguments);
* promise settlement of `waitForWalletResponse` is modelled as a fold over an
  ordered list of callback-firing events (tick, timeout, operation fulfil,
  operation reject), with the `resolved` boolean exactly as in the source;
* outcomes of external asynchronous calls (wallet signing, RPC broadcast,
  Firestore) are passed in as `Except`/`Option` valued parameters.
-/

/-! ## Log model (PoolBridge.tsx lines 70-111, 274-356) -/

/-- Log severity levels, from the `LogLevel` union type. -/
inductive LogLevel
  | info
  | warn
  | error
  | success
deriving Repr, DecidableEq

/-- Context maps (`Record<string, unknown>`) are modelled as association
lists; JS object spread is modelled by list append (later pairs shadow). -/
abbrev LogContext := List (String × String)

/-- One diagnostic log entry, from the `LogEntry` type. -/
structure LogEntry where
  id : Nat
  timestamp : String
  level : LogLevel
  message : String
  count : Nat
  context : Option LogContext
  onceKey : Option String
deriving Repr, DecidableEq

/-- Options bag of `appendLog` (the `AppendLogOptions` type). -/
structure AppendLogOptions where
  level : Option LogLevel := none
  context : Option LogContext := none
  onceKey : Option String := none
deriving Repr, DecidableEq

/-- Capacity bound `MAX_LOG_ENTRIES` (line 89). -/
def MAX_LOG_ENTRIES : Nat := 200

/-- Whitespace class of JavaScript string trimming (space, tab, newlines and
form/vertical feed; the model covers the ASCII part of the JS WhiteSpace
production). -/
def isJsSpace (c : Char) : Bool :=
  c == ' ' || c == '\t' || c == '\n' || c == '\r' || c == '\x0b' || c == '\x0c'

/-- JavaScript `trim()` on a character list: drop whitespace on both ends. -/
def jsTrimList (l : List Char) : List Char :=
  ((l.dropWhile isJsSpace).reverse.dropWhile isJsSpace).reverse

/-- JavaScript `trim()` on a string (kernel-computable, unlike
`String.trim`). -/
def jsTrim (s : String) : String :=
  String.mk (jsTrimList s.data)

/-- Merge of an optional existing context with an optional new one:
`context ? { ...existing.context, ...context } : existing.context`. -/
def mergeContext (existing newCtx : Option LogContext) : Option LogContext :=
  match newCtx with
  | some c => some (existing.getD [] ++ c)
  | none => existing

/-- Update the first entry whose `onceKey` equals `some k`; `none` if there is
no such entry.  This is the `findIndex` + in-place overwrite of lines
286-302 written as structural recursion. -/
def updateFirstWithKey (k : String) (upd : LogEntry → LogEntry) :
    List LogEntry → Option (List LogEntry)
  | [] => none
  | e :: rest =>
    if e.onceKey = some k then some (upd e :: rest)
    else
      match updateFirstWithKey k upd rest with
      | some rest2 => some (e :: rest2)
      | none => none

/-- In-place overwrite applied to a de-duplicated entry in the `onceKey`
branch (lines 292-300). -/
def keyUpdate (trimmed timestamp : String) (context : Option LogContext)
    (ex : LogEntry) : LogEntry :=
  { ex with
    message := trimmed
    timestamp := timestamp
    count := ex.count + 1
    context := mergeContext ex.context context }

/-- Fresh entry construction (lines 321-329). -/
def mkEntry (newId : Nat) (timestamp : String) (level : LogLevel)
    (trimmed : String) (context : Option LogContext)
    (onceKey : Option String) : LogEntry :=
  { id := newId, timestamp := timestamp, level := level, message := trimmed,
    count := 1, context := context, onceKey := onceKey }

/-- Bounded push (lines 331-336): evict the oldest entry with `shift()` when
at capacity, then append the new entry. -/
def pushEntry (entries : List LogEntry) (entry : LogEntry) : List LogEntry :=
  (if MAX_LOG_ENTRIES ≤ entries.length then entries.drop 1 else entries)
    ++ [entry]

/-- Pure core of `appendLog` (lines 274-337): the updater function passed to
`setLogEntries`, applied to the previous entry list. -/
def appendLog (previous : List LogEntry) (message : String)
    (opts : AppendLogOptions) (timestamp : String) (newId : Nat) :
    List LogEntry :=
  let trimmed := jsTrim message
  let level := opts.level.getD LogLevel.info
  let context := opts.context
  let onceKey := opts.onceKey
  let keyBranch : Option (List LogEntry) :=
    match onceKey with
    | some k =>
      if k = "" then none
      else updateFirstWithKey k (keyUpdate trimmed timestamp context) previous
    | none => none
  match keyBranch with
  | some updated => updated
  | none =>
    match previous.getLast? with
    | some last =>
      if (onceKey = none ∨ onceKey = some "") ∧
          last.message = trimmed ∧ last.level = level then
        previous.dropLast ++
          [{ last with
              timestamp := timestamp
              count := last.count + 1
              context := mergeContext last.context context }]
      else pushEntry previous (mkEntry newId timestamp level trimmed context onceKey)
    | none => pushEntry previous (mkEntry newId timestamp level trimmed context onceKey)

/-- One recorded `appendLog` call with its ambient timestamp and id. -/
structure LogCall where
  message : String
  opts : AppendLogOptions
  timestamp : String
  id : Nat

/-- Replay a sequence of `appendLog` calls starting from the empty log. -/
def applyCalls (calls : List LogCall) : List LogEntry :=
  calls.foldl (fun acc c => appendLog acc c.message c.opts c.timestamp c.id) []

/-- De-duplication applies: either a non-empty `onceKey` already present in
the list, or no (truthy) `onceKey` and the last entry matches the trimmed
message and level. -/
def dedupApplies (previous : List LogEntry) (message : String)
    (opts : AppendLogOptions) : Bool :=
  (match opts.onceKey with
   | some k => k ≠ "" && previous.any (fun e => e.onceKey == some k)
   | none => false) ||
  ((opts.onceKey == none || opts.onceKey == some "") &&
    (match previous.getLast? with
     | some last =>
       last.message == jsTrim message && last.level == opts.level.getD LogLevel.info
     | none => false))

/-! ## Wait-with-progress model (PoolBridge.tsx lines 358-434) -/

/-- Callback firings of `waitForWalletResponse`, in the order the event loop
runs them: an interval tick, the timeout firing, or the underlying operation
settling. -/
inductive WaitEvent (α ε : Type)
  | tick (elapsed : Nat)
  | timeoutFire (elapsed : Nat)
  | opFulfill (v : α)
  | opReject (e : ε)
deriving Repr, DecidableEq

/-- How the returned promise settles. -/
inductive WaitSettlement (α ε : Type)
  | resolvedWith (v : α)
  | rejectedWith (e : ε)
  | rejectedTimeout (msg : String)
deriving Repr, DecidableEq

/-- The `resolved` flag and the (at most one) settlement of the promise. -/
structure WaitState (α ε : Type) where
  resolved : Bool
  settlement : Option (WaitSettlement α ε)
deriving Repr, DecidableEq

/-- Message of the timeout rejection (line 386). -/
def timeoutMessage (label : String) (elapsed : Nat) : String :=
  label ++ " timed out after " ++ toString elapsed ++ " seconds"

/-- Effect of one callback firing on the promise state, exactly as each
handler guards on `resolved` in lines 374-430 (ticks only log). -/
def waitStep {α ε : Type} (label : String) (s : WaitState α ε)
    (e : WaitEvent α ε) : WaitState α ε :=
  match e with
  | .tick _ => s
  | .timeoutFire elapsed =>
    if s.resolved then s
    else { resolved := true,
           settlement := some (.rejectedTimeout (timeoutMessage label elapsed)) }
  | .opFulfill v =>
    if s.resolved then s
    else { resolved := true, settlement := some (.resolvedWith v) }
  | .opReject err =>
    if s.resolved then s
    else { resolved := true, settlement := some (.rejectedWith err) }

/-- Run the race over an ordered list of callback firings. -/
def runWait {α ε : Type} (label : String) (events : List (WaitEvent α ε)) :
    WaitState α ε :=
  events.foldl (waitStep label) { resolved := false, settlement := none }

/-- Whether an event is a progress tick (it never settles the promise). -/
def WaitEvent.isTick {α ε : Type} : WaitEvent α ε → Bool
  | .tick _ => true
  | _ => false

/-- The settlement a deciding (non-tick) event produces when it is the first
to fire. -/
def decidingOutcome {α ε : Type} (label : String) :
    WaitEvent α ε → Option (WaitSettlement α ε)
  | .tick _ => none
  | .timeoutFire elapsed => some (.rejectedTimeout (timeoutMessage label elapsed))
  | .opFulfill v => some (.resolvedWith v)
  | .opReject err => some (.rejectedWith err)

/-! ## Lemmas about the wait-with-progress race -/

/-- Once settled, no later callback firing changes the promise state. -/
theorem waitStep_of_resolved {α ε : Type} (label : String)
    (s : WaitState α ε) (e : WaitEvent α ε) (h : s.resolved = true) :
    waitStep label s e = s := by
  cases e <;> simp [waitStep, h]

/-- Ticks leave the promise state unchanged. -/
theorem waitStep_tick {α ε : Type} (label : String) (s : WaitState α ε)
    (e : WaitEvent α ε) (h : e.isTick = true) : waitStep label s e = s := by
  cases e with
  | tick n => rfl
  | timeoutFire n => simp [WaitEvent.isTick] at h
  | opFulfill v => simp [WaitEvent.isTick] at h
  | opReject err => simp [WaitEvent.isTick] at h

/-- A fold over events starting from a settled state stays settled there. -/
theorem foldl_waitStep_of_resolved {α ε : Type} (label : String)
    (s : WaitState α ε) (h : s.resolved = true) :
    ∀ events : List (WaitEvent α ε), events.foldl (waitStep label) s = s := by
  intro events
  induction events with
  | nil => rfl
  | cons e rest ih => rw [List.foldl_cons, waitStep_of_resolved label s e h, ih]

/-- A prefix of ticks leaves the initial (unsettled) state unchanged. -/
theorem foldl_waitStep_ticks {α ε : Type} (label : String)
    (pre : List (WaitEvent α ε)) (hpre : ∀ e ∈ pre, e.isTick = true)
    (s : WaitState α ε) : pre.foldl (waitStep label) s = s := by
  induction pre with
  | nil => rfl
  | cons e rest ih =>
    rw [List.foldl_cons, waitStep_tick label s e (hpre e (by simp))]
    exact ih (fun x hx => hpre x (by simp [hx]))

/-- C1: `waitForWalletResponse` settles exactly once, with the first of the
three racing outcomes: for any run consisting of progress ticks followed by a
first deciding event (operation fulfilment, operation rejection, or the
timeout firing) and then arbitrary further events, the promise ends resolved,
its unique settlement is the value when the operation fulfilled first, the
same error when the operation rejected first, and the timeout error naming
the label when the timeout fired first; later outcomes are ignored and ticks
never affect the result. -/
theorem waitForWalletResponse_first_outcome {α ε : Type} (label : String)
    (pre : List (WaitEvent α ε)) (d : WaitEvent α ε)
    (post : List (WaitEvent α ε))
    (hpre : ∀ e ∈ pre, e.isTick = true) (hd : d.isTick = false) :
    (runWait label (pre ++ d :: post)).resolved = true ∧
    (runWait label (pre ++ d :: post)).settlement = decidingOutcome label d ∧
    (∀ v, d = .opFulfill v →
      decidingOutcome label d = some (.resolvedWith v)) ∧
    (∀ err, d = .opReject err →
      decidingOutcome label d = some (.rejectedWith err)) ∧
    (∀ elapsed, d = .timeoutFire elapsed →
      decidingOutcome label d =
        some (.rejectedTimeout (timeoutMessage label elapsed))) := by
  have hrun : runWait label (pre ++ d :: post) =
      post.foldl (waitStep label)
        (waitStep label { resolved := false, settlement := none } d) := by
    unfold runWait
    rw [List.foldl_append, foldl_waitStep_ticks label pre hpre, List.foldl_cons]
  have hstep : waitStep label
      ({ resolved := false, settlement := none } : WaitState α ε) d =
      { resolved := true, settlement := decidingOutcome label d } := by
    cases d <;> simp [waitStep, decidingOutcome, WaitEvent.isTick] at hd ⊢
  have habsorb : post.foldl (waitStep label)
      ({ resolved := true, settlement := decidingOutcome label d } :
        WaitState α ε) =
      { resolved := true, settlement := decidingOutcome label d } :=
    foldl_waitStep_of_resolved label _ rfl post
  rw [hrun, hstep, habsorb]
  refine ⟨rfl, rfl, ?_, ?_, ?_⟩
  · intro v hv; subst hv; rfl
  · intro err he; subst he; rfl
  · intro elapsed hel; subst hel; rfl

/-- Witness for C1 at a concrete run: a tick, then the operation fulfils with
value 7, then the timeout fires late; the promise resolves with 7. -/
theorem waitForWalletResponse_first_outcome_witness :
    ((∀ e ∈ ([WaitEvent.tick 5] : List (WaitEvent Nat String)),
        e.isTick = true) ∧
      (WaitEvent.opFulfill 7 : WaitEvent Nat String).isTick = false) ∧
    (runWait "sendTransaction"
        ([WaitEvent.tick 5, WaitEvent.opFulfill 7,
          WaitEvent.timeoutFire 30] : List (WaitEvent Nat String))).settlement =
      some (WaitSettlement.resolvedWith 7) := by
  refine ⟨⟨by decide, by decide⟩, ?_⟩
  have h := waitForWalletResponse_first_outcome (α := Nat) (ε := String)
    "sendTransaction" [WaitEvent.tick 5] (WaitEvent.opFulfill 7)
    [WaitEvent.timeoutFire 30] (by decide) (by decide)
  exact h.2.1

/-! ## Lemmas about the log model -/

/-- Characterisation of a successful keyed update: the list splits around the
first entry carrying the key, which is replaced by its update. -/
theorem updateFirstWithKey_spec (k : String) (f : LogEntry → LogEntry) :
    ∀ (l l' : List LogEntry), updateFirstWithKey k f l = some l' →
    ∃ pre e post, l = pre ++ e :: post ∧ e.onceKey = some k ∧
      l' = pre ++ f e :: post := by
  intro l
  induction l with
  | nil => intro l' h; simp [updateFirstWithKey] at h
  | cons e rest ih =>
    intro l' h
    by_cases he : e.onceKey = some k
    · refine ⟨[], e, rest, by simp, he, ?_⟩
      simp only [updateFirstWithKey, if_pos he, Option.some.injEq] at h
      simp [← h]
    · simp only [updateFirstWithKey, if_neg he] at h
      cases hrec : updateFirstWithKey k f rest with
      | none => rw [hrec] at h; simp at h
      | some rest2 =>
        rw [hrec] at h
        simp only [Option.some.injEq] at h
        obtain ⟨pre, x, post, hl, hx, hl2⟩ := ih rest2 hrec
        exact ⟨e :: pre, x, post, by simp [hl], hx, by simp [← h, hl2]⟩

/-- A keyed update fails exactly when no entry carries the key. -/
theorem updateFirstWithKey_eq_none (k : String) (f : LogEntry → LogEntry) :
    ∀ l : List LogEntry, (∀ e ∈ l, e.onceKey ≠ some k) →
    updateFirstWithKey k f l = none := by
  intro l
  induction l with
  | nil => intro _; rfl
  | cons e rest ih =>
    intro h
    have he : e.onceKey ≠ some k := h e (by simp)
    simp only [updateFirstWithKey, if_neg he]
    rw [ih (fun x hx => h x (by simp [hx]))]

/-- A keyed update succeeds when some entry carries the key. -/
theorem updateFirstWithKey_isSome (k : String) (f : LogEntry → LogEntry) :
    ∀ l : List LogEntry, (∃ e ∈ l, e.onceKey = some k) →
    ∃ l', updateFirstWithKey k f l = some l' := by
  intro l
  induction l with
  | nil => rintro ⟨e, he, _⟩; simp at he
  | cons x rest ih =>
    rintro ⟨e, he, hk⟩
    by_cases hx : x.onceKey = some k
    · exact ⟨f x :: rest, by simp [updateFirstWithKey, hx]⟩
    · have hmem : e ∈ rest := by
        rcases List.mem_cons.mp he with h1 | h1
        · exact absurd (h1 ▸ hk) hx
        · exact h1
      obtain ⟨rest2, hrest⟩ := ih ⟨e, hmem, hk⟩
      exact ⟨x :: rest2, by simp [updateFirstWithKey, hx, hrest]⟩

/-- Unfolding of `appendLog` in the `onceKey`-found branch. -/
theorem appendLog_key_found (previous : List LogEntry) (message : String)
    (opts : AppendLogOptions) (timestamp : String) (newId : Nat)
    (k : String) (hk : opts.onceKey = some k) (hkne : k ≠ "")
    (l' : List LogEntry)
    (hupd : updateFirstWithKey k
      (keyUpdate (jsTrim message) timestamp opts.context) previous = some l') :
    appendLog previous message opts timestamp newId = l' := by
  unfold appendLog
  simp only [hk, if_neg hkne, hupd]

/-- Unfolding of `appendLog` in the consecutive-duplicate branch. -/
theorem appendLog_consecutive (previous : List LogEntry) (message : String)
    (opts : AppendLogOptions) (timestamp : String) (newId : Nat)
    (hkey : opts.onceKey = none ∨ opts.onceKey = some "")
    (last : LogEntry) (hlast : previous.getLast? = some last)
    (hmsg : last.message = jsTrim message)
    (hlvl : last.level = opts.level.getD LogLevel.info) :
    appendLog previous message opts timestamp newId =
      previous.dropLast ++
        [{ last with
            timestamp := timestamp
            count := last.count + 1
            context := mergeContext last.context opts.context }] := by
  unfold appendLog
  have hkb : (match opts.onceKey with
      | some k =>
        if k = "" then none
        else updateFirstWithKey k
          (keyUpdate (jsTrim message) timestamp opts.context) previous
      | none => none) = (none : Option (List LogEntry)) := by
    rcases hkey with h | h
    · simp [h]
    · simp [h]
  simp only [hkb, hlast]
  rw [if_pos ⟨hkey, hmsg, hlvl⟩]

/-- The `onceKey` branch of `appendLog` selects nothing when no entry carries
a truthy matching key. -/
theorem appendLog_keyBranch_none (previous : List LogEntry)
    (trimmed timestamp : String) (context : Option LogContext)
    (onceKey : Option String)
    (h : ∀ k, onceKey = some k → k ≠ "" → ∀ e ∈ previous, e.onceKey ≠ some k) :
    (match onceKey with
     | some k =>
       if k = "" then none
       else updateFirstWithKey k (keyUpdate trimmed timestamp context) previous
     | none => none) = (none : Option (List LogEntry)) := by
  cases onceKey with
  | none => rfl
  | some k =>
    by_cases hk : k = ""
    · simp [hk]
    · simp only [if_neg hk]
      exact updateFirstWithKey_eq_none k _ previous (h k rfl hk)

/-- Unfolding of `appendLog` in the fresh-append branch: when no
de-duplication applies, the new entry is pushed with eviction at capacity. -/
theorem appendLog_push (previous : List LogEntry) (message : String)
    (opts : AppendLogOptions) (timestamp : String) (newId : Nat)
    (h : dedupApplies previous message opts = false) :
    appendLog previous message opts timestamp newId =
      pushEntry previous
        (mkEntry newId timestamp (opts.level.getD LogLevel.info)
          (jsTrim message) opts.context opts.onceKey) := by
  simp only [appendLog]
  split
  · next updated hupd =>
    exfalso
    cases hop : opts.onceKey with
    | none => rw [hop] at hupd; simp at hupd
    | some k =>
      rw [hop] at hupd
      by_cases hke : k = ""
      · simp [hke] at hupd
      · have hnone : updateFirstWithKey k
            (keyUpdate (jsTrim message) timestamp opts.context) previous = none := by
          apply updateFirstWithKey_eq_none
          intro e he hcontra
          have h1 := h
          simp only [dedupApplies, hop, Bool.or_eq_false_iff] at h1
          obtain ⟨h1, -⟩ := h1
          rw [Bool.and_eq_false_iff] at h1
          rcases h1 with h1 | h1
          · simp [hke] at h1
          · have := List.any_eq_false.mp h1 e he
            simp [hcontra] at this
        simp [hke, hnone] at hupd
  · split
    · next last heq =>
      rw [if_neg]
      rintro ⟨hfalsy, hmsg, hlvl⟩
      have h2 := h
      simp only [dedupApplies, heq, Bool.or_eq_false_iff] at h2
      obtain ⟨-, h2⟩ := h2
      rcases hfalsy with hf | hf
      · simp [hf, hmsg, hlvl] at h2
      · simp [hf, hmsg, hlvl] at h2
    · rfl

/-- Length is preserved whenever one of the two de-duplication branches of
`appendLog` fires. -/
theorem appendLog_length_dedup (previous : List LogEntry) (message : String)
    (opts : AppendLogOptions) (timestamp : String) (newId : Nat)
    (hd : dedupApplies previous message opts = true) :
    (appendLog previous message opts timestamp newId).length =
      previous.length := by
  simp only [dedupApplies, Bool.or_eq_true, Bool.and_eq_true] at hd
  rcases hd with hd | ⟨hfalsy, hlast⟩
  · cases hk : opts.onceKey with
    | none => rw [hk] at hd; simp at hd
    | some k =>
      rw [hk] at hd
      simp only [Bool.and_eq_true, decide_eq_true_eq, List.any_eq_true,
        beq_iff_eq] at hd
      obtain ⟨hkne, e, he, hkey⟩ := hd
      obtain ⟨l', hupd⟩ :=
        updateFirstWithKey_isSome k
          (keyUpdate (jsTrim message) timestamp opts.context) previous ⟨e, he, hkey⟩
      rw [appendLog_key_found previous message opts timestamp newId k hk hkne
        l' hupd]
      obtain ⟨pre, x, post, hprev, -, hl'⟩ :=
        updateFirstWithKey_spec k _ previous l' hupd
      rw [hl', hprev]
      simp
  · cases hgl : previous.getLast? with
    | none => rw [hgl] at hlast; simp at hlast
    | some last =>
      rw [hgl] at hlast
      simp only [Bool.and_eq_true, beq_iff_eq] at hlast
      obtain ⟨hmsg, hlvl⟩ := hlast
      have hfalsy2 : opts.onceKey = none ∨ opts.onceKey = some "" := by
        rcases hfalsy with hf | hf
        · exact Or.inl (by simpa using hf)
        · exact Or.inr (by simpa using hf)
      rw [appendLog_consecutive previous message opts timestamp newId hfalsy2
        last hgl hmsg hlvl]
      have hsplit : previous.dropLast ++ [last] = previous :=
        List.dropLast_append_getLast? last hgl
      conv_rhs => rw [← hsplit]
      simp

/-- The bounded push never grows the list beyond the capacity. -/
theorem pushEntry_length_le (entries : List LogEntry) (entry : LogEntry)
    (h : entries.length ≤ MAX_LOG_ENTRIES) :
    (pushEntry entries entry).length ≤ MAX_LOG_ENTRIES := by
  unfold pushEntry
  by_cases hc : MAX_LOG_ENTRIES ≤ entries.length
  · rw [if_pos hc, List.length_append, List.length_drop]
    simp only [List.length_cons, List.length_nil]
    unfold MAX_LOG_ENTRIES at h hc ⊢
    omega
  · rw [if_neg hc, List.length_append]
    simp only [List.length_cons, List.length_nil]
    unfold MAX_LOG_ENTRIES at h hc ⊢
    omega

/-- One `appendLog` call preserves the capacity bound. -/
theorem appendLog_length_le (previous : List LogEntry) (message : String)
    (opts : AppendLogOptions) (timestamp : String) (newId : Nat)
    (h : previous.length ≤ MAX_LOG_ENTRIES) :
    (appendLog previous message opts timestamp newId).length ≤
      MAX_LOG_ENTRIES := by
  by_cases hd : dedupApplies previous message opts = true
  · rw [appendLog_length_dedup previous message opts timestamp newId hd]
    exact h
  · rw [appendLog_push previous message opts timestamp newId
      (Bool.not_eq_true _ ▸ hd)]
    exact pushEntry_length_le previous _ h

/-- C6: calling `appendLog` with a message/level pair equal to the last
entry's message and level and no de-duplication key, or with a non-empty
de-duplication key carried by some existing entry, rewrites that existing
entry in place — its timestamp becomes the new timestamp and its count is
incremented — and the list length is unchanged. -/
theorem appendLog_dedup_updates_in_place (previous : List LogEntry)
    (message : String) (opts : AppendLogOptions) (timestamp : String)
    (newId : Nat)
    (h : (opts.onceKey = none ∧ ∃ last, previous.getLast? = some last ∧
            last.message = jsTrim message ∧
            last.level = opts.level.getD LogLevel.info) ∨
         (∃ k, opts.onceKey = some k ∧ k ≠ "" ∧
            ∃ e ∈ previous, e.onceKey = some k)) :
    (appendLog previous message opts timestamp newId).length =
      previous.length ∧
    ∃ pre e e2 post, previous = pre ++ e :: post ∧
      appendLog previous message opts timestamp newId = pre ++ e2 :: post ∧
      e2.count = e.count + 1 ∧ e2.timestamp = timestamp := by
  rcases h with ⟨hkey, last, hlast, hmsg, hlvl⟩ | ⟨k, hk, hkne, hex⟩
  · have heq := appendLog_consecutive previous message opts timestamp newId
      (Or.inl hkey) last hlast hmsg hlvl
    have hsplit : previous.dropLast ++ [last] = previous :=
      List.dropLast_append_getLast? last hlast
    constructor
    · rw [heq]
      conv_rhs => rw [← hsplit]
      simp
    · exact ⟨previous.dropLast, last, _, [], hsplit.symm, heq, rfl, rfl⟩
  · obtain ⟨l', hupd⟩ :=
      updateFirstWithKey_isSome k
        (keyUpdate (jsTrim message) timestamp opts.context) previous hex
    have heq := appendLog_key_found previous message opts timestamp newId k hk
      hkne l' hupd
    obtain ⟨pre, e, post, hprev, -, hl'⟩ :=
      updateFirstWithKey_spec k _ previous l' hupd
    constructor
    · rw [heq, hl', hprev]
      simp
    · exact ⟨pre, e, keyUpdate (jsTrim message) timestamp opts.context e, post,
        hprev, by rw [heq, hl'], rfl, rfl⟩

/-- Sample log entry for concrete witnesses. -/
def sampleEntry : LogEntry :=
  { id := 0, timestamp := "t0", level := LogLevel.info, message := "hello",
    count := 1, context := none, onceKey := none }

/-- Witness for C6: appending the same message/level as the single existing
entry keeps one entry. -/
theorem appendLog_dedup_updates_in_place_witness :
    (appendLog [sampleEntry] "hello" {} "t1" 1).length = 1 :=
  (appendLog_dedup_updates_in_place [sampleEntry] "hello" {} "t1" 1
    (Or.inl ⟨rfl, sampleEntry, rfl, by decide, rfl⟩)).1

/-- C7: starting from the empty log, no sequence of `appendLog` calls ever
grows the list beyond `MAX_LOG_ENTRIES` (200); and a non-deduplicated entry
arriving exactly at capacity evicts the oldest entry and is appended at the
end. -/
theorem appendLog_capacity :
    (∀ calls : List LogCall,
      (applyCalls calls).length ≤ MAX_LOG_ENTRIES) ∧
    (∀ (previous : List LogEntry) (message : String)
        (opts : AppendLogOptions) (timestamp : String) (newId : Nat),
      previous.length = MAX_LOG_ENTRIES →
      dedupApplies previous message opts = false →
      appendLog previous message opts timestamp newId =
        previous.drop 1 ++
          [mkEntry newId timestamp (opts.level.getD LogLevel.info)
            (jsTrim message) opts.context opts.onceKey]) := by
  constructor
  · have key : ∀ (calls : List LogCall) (acc : List LogEntry),
        acc.length ≤ MAX_LOG_ENTRIES →
        (calls.foldl
          (fun acc c => appendLog acc c.message c.opts c.timestamp c.id)
          acc).length ≤ MAX_LOG_ENTRIES := by
      intro calls
      induction calls with
      | nil => intro acc h; exact h
      | cons c rest ih =>
        intro acc h
        exact ih _ (appendLog_length_le acc c.message c.opts c.timestamp c.id h)
    intro calls
    exact key calls [] (by simp [MAX_LOG_ENTRIES])
  · intro previous message opts timestamp newId hlen hded
    rw [appendLog_push previous message opts timestamp newId hded]
    unfold pushEntry
    rw [if_pos (le_of_eq hlen.symm)]

/-- Witness for C7 at concrete inputs: a one-call replay stays within bounds,
and a fresh entry at exact capacity evicts the head. -/
theorem appendLog_capacity_witness :
    ((List.replicate MAX_LOG_ENTRIES sampleEntry).length = MAX_LOG_ENTRIES ∧
      dedupApplies (List.replicate MAX_LOG_ENTRIES sampleEntry) "bye" {} =
        false) ∧
    (applyCalls [⟨"m", {}, "t", 0⟩]).length ≤ MAX_LOG_ENTRIES ∧
    appendLog (List.replicate MAX_LOG_ENTRIES sampleEntry) "bye" {} "t1" 1 =
      (List.replicate MAX_LOG_ENTRIES sampleEntry).drop 1 ++
        [mkEntry 1 "t1" LogLevel.info (jsTrim "bye") none none] :=
  ⟨⟨by simp, by decide⟩, appendLog_capacity.1 [⟨"m", {}, "t", 0⟩],
    appendLog_capacity.2 (List.replicate MAX_LOG_ENTRIES sampleEntry) "bye" {}
      "t1" 1 (by simp) (by decide)⟩

/-! ## Amount conversion (PoolBridge.tsx lines 88, 113-140) -/

/-- Numeric value of an ASCII digit character. -/
def digitVal (c : Char) : Nat := c.toNat - 48

/-- Decimal value of a digit string, as computed by `BigInt` on it. -/
def strToNat (s : List Char) : Nat :=
  s.foldl (fun acc c => 10 * acc + digitVal c) 0

/-- JavaScript `split(sep)` on a character list. -/
def splitOnChar (sep : Char) : List Char → List (List Char)
  | [] => [[]]
  | c :: rest =>
    let r := splitOnChar sep rest
    if c == sep then [] :: r
    else
      match r with
      | h :: t => (c :: h) :: t
      | [] => [[c]]

/-- Test of the regular expression `DECIMAL_PATTERN` (line 88): one or more
digits, optionally followed by a dot and one or more digits. -/
def decimalPatternMatch (s : List Char) : Bool :=
  match splitOnChar '.' s with
  | [w] => !w.isEmpty && w.all Char.isDigit
  | [w, f] => !w.isEmpty && !f.isEmpty && w.all Char.isDigit && f.all Char.isDigit
  | _ => false

/-- JavaScript `padEnd(n, c)`: append copies of `c` up to length `n`. -/
def padEnd (s : List Char) (n : Nat) (c : Char) : List Char :=
  s ++ List.replicate (n - s.length) c

/-- Strip of the leading-zero prefix performed by
`replace(/^0+(?=\d)/, "")` (line 137), specialised to the digit-only strings
it is applied to: the longest prefix of zeros followed by a further digit is
removed, so an all-zero string keeps a single zero. -/
def stripLeadingZeros (s : List Char) : List Char :=
  let rest := s.dropWhile (fun c => c == '0')
  if rest.isEmpty then (if s.isEmpty then [] else ['0']) else rest

/-- Shallow embedding of `toBaseUnits` (lines 113-140).  The string is a
character list; the result is `none` when the function throws on a pattern
mismatch, and otherwise carries the converted value together with the number
of times the `onWarn` callback was invoked. -/
def toBaseUnits (amountRaw : List Char) (decimals : Nat) :
    Option (Nat × Nat) :=
  let normalized := jsTrimList amountRaw
  if !decimalPatternMatch normalized then none
  else
    let parts := splitOnChar '.' normalized
    let wholePart := parts.headD []
    let fractionPart := (parts.drop 1).headD []
    let warnCount := if decimals < fractionPart.length then 1 else 0
    let fractionComponent :=
      if decimals < fractionPart.length then fractionPart.take decimals
      else fractionPart
    let paddedFraction := padEnd fractionComponent decimals '0'
    let digitString := stripLeadingZeros (wholePart ++ paddedFraction)
    some (strToNat (if digitString.isEmpty then ['0'] else digitString),
      warnCount)

/-! ## Lemmas about amount conversion -/

/-- Folding digits from an arbitrary accumulator scales it by a power of
ten. -/
theorem foldl_digits (s : List Char) : ∀ a : Nat,
    s.foldl (fun acc c => 10 * acc + digitVal c) a =
      a * 10 ^ s.length + strToNat s := by
  induction s with
  | nil => intro a; simp [strToNat]
  | cons c t ih =>
    intro a
    have hcons : strToNat (c :: t) =
        t.foldl (fun acc c => 10 * acc + digitVal c) (digitVal c) := by
      simp [strToNat]
    rw [List.foldl_cons, ih (10 * a + digitVal c), hcons, ih (digitVal c),
      List.length_cons]
    ring

/-- Value of a concatenation of digit strings. -/
theorem strToNat_append (xs ys : List Char) :
    strToNat (xs ++ ys) = strToNat xs * 10 ^ ys.length + strToNat ys := by
  unfold strToNat
  rw [List.foldl_append]
  exact foldl_digits ys _

/-- A block of zero digits has value zero. -/
theorem strToNat_replicate_zero (k : Nat) :
    strToNat (List.replicate k '0') = 0 := by
  induction k with
  | zero => rfl
  | succ n ih =>
    rw [List.replicate_succ]
    have : strToNat ('0' :: List.replicate n '0') =
        (List.replicate n '0').foldl
          (fun acc c => 10 * acc + digitVal c) (digitVal '0') := by
      simp [strToNat]
    rw [this]
    have hz : digitVal '0' = 0 := by decide
    rw [hz]
    exact ih

/-- Padding with zeros on the right scales the value. -/
theorem strToNat_padEnd (s : List Char) (n : Nat) :
    strToNat (padEnd s n '0') = strToNat s * 10 ^ (n - s.length) := by
  unfold padEnd
  rw [strToNat_append, strToNat_replicate_zero, List.length_replicate]
  omega

/-- Stripping the leading-zero prefix preserves the value. -/
theorem strToNat_stripLeadingZeros (l : List Char) :
    strToNat (stripLeadingZeros l) = strToNat l := by
  induction l with
  | nil => rfl
  | cons c t ih =>
    by_cases hc : (c == '0') = true
    · have hc0 : c = '0' := by simpa using hc
      subst hc0
      have hval : strToNat ('0' :: t) = strToNat t := by
        have : strToNat ('0' :: t) =
            t.foldl (fun acc c => 10 * acc + digitVal c) (digitVal '0') := by
          simp [strToNat]
        rw [this]
        have hz : digitVal '0' = 0 := by decide
        rw [hz]
        rfl
      rw [hval]
      unfold stripLeadingZeros
      simp only [List.dropWhile_cons, beq_self_eq_true, if_true]
      unfold stripLeadingZeros at ih
      by_cases hrest : (t.dropWhile (fun c => c == '0')).isEmpty = true
      · simp only [hrest, if_true] at ih ⊢
        simp only [List.isEmpty_cons, if_false]
        by_cases ht : t.isEmpty = true
        · have : t = [] := by simpa [List.isEmpty_iff] using ht
          subst this
          simp [strToNat]
          decide
        · simp only [ht, if_false] at ih
          exact ih
      · simp only [hrest, if_false] at ih ⊢
        exact ih
    · have hcf : (c == '0') = false := by simpa using hc
      unfold stripLeadingZeros
      simp [List.dropWhile_cons, hcf]

/-- The all-zero guard in `toBaseUnits` does not change the value. -/
theorem strToNat_emptyGuard (l : List Char) :
    strToNat (if l.isEmpty then ['0'] else l) = strToNat l := by
  by_cases h : l.isEmpty = true
  · have : l = [] := by simpa [List.isEmpty_iff] using h
    subst this
    simp [strToNat]
    decide
  · simp [h]

/-- Dropping nothing: `dropWhile` is the identity when no element satisfies
the predicate. -/
theorem dropWhile_eq_self_of_all {p : Char → Bool} (l : List Char)
    (h : ∀ c ∈ l, p c = false) : l.dropWhile p = l := by
  cases l with
  | nil => rfl
  | cons c t =>
    have := h c (List.mem_cons_self c t)
    simp [List.dropWhile_cons, this]

/-- JS trimming is the identity on whitespace-free strings. -/
theorem jsTrimList_eq_self (l : List Char)
    (h : ∀ c ∈ l, isJsSpace c = false) : jsTrimList l = l := by
  unfold jsTrimList
  rw [dropWhile_eq_self_of_all l h,
    dropWhile_eq_self_of_all l.reverse
      (fun c hc => h c (List.mem_reverse.mp hc)),
    List.reverse_reverse]

/-- A digit is not a dot. -/
theorem isDigit_ne_dot (c : Char) (h : c.isDigit = true) :
    (c == '.') = false := by
  cases hx : (c == '.') with
  | false => rfl
  | true =>
    exfalso
    have : c = '.' := by simpa using hx
    subst this
    exact absurd h (by decide)

/-- A digit is not JS whitespace. -/
theorem isDigit_not_space (c : Char) (h : c.isDigit = true) :
    isJsSpace c = false := by
  cases hx : isJsSpace c with
  | false => rfl
  | true =>
    exfalso
    have hd : ((((c = ' ' ∨ c = '\t') ∨ c = '\n') ∨ c = '\r') ∨
        c = '\x0b') ∨ c = '\x0c' := by
      simpa [isJsSpace] using hx
    rcases hd with ((((rfl | rfl) | rfl) | rfl) | rfl) | rfl <;>
      exact absurd h (by decide)

/-- Split of a separator-free string. -/
theorem splitOnChar_no_sep (sep : Char) (w : List Char)
    (h : ∀ c ∈ w, (c == sep) = false) : splitOnChar sep w = [w] := by
  induction w with
  | nil => rfl
  | cons c t ih =>
    have hc := h c (List.mem_cons_self c t)
    have ht := ih (fun x hx => h x (List.mem_cons_of_mem c hx))
    simp [splitOnChar, hc, ht]

/-- Split at the unique separator occurrence. -/
theorem splitOnChar_append (sep : Char) (w f : List Char)
    (h : ∀ c ∈ w, (c == sep) = false) :
    splitOnChar sep (w ++ sep :: f) = w :: splitOnChar sep f := by
  induction w with
  | nil => simp [splitOnChar]
  | cons c t ih =>
    have hc := h c (List.mem_cons_self c t)
    have ht := ih (fun x hx => h x (List.mem_cons_of_mem c hx))
    simp [splitOnChar, hc, ht]

/-- C4: on a decimal string `w.f` (digits, with an optional fractional part)
`toBaseUnits` truncates — without rounding — a fractional part longer than
the requested precision to its first `d` digits and invokes the warning
callback exactly once, and otherwise never warns and returns the exact value
scaled by `10 ^ d`. -/
theorem toBaseUnits_truncates_and_warns (w f : List Char) (d : Nat)
    (hw : w ≠ []) (hwd : ∀ c ∈ w, c.isDigit = true)
    (hfd : ∀ c ∈ f, c.isDigit = true) :
    toBaseUnits (if f = [] then w else w ++ '.' :: f) d =
      (if d < f.length then
        some (strToNat w * 10 ^ d + strToNat (f.take d), 1)
      else
        some (strToNat w * 10 ^ d + strToNat f * 10 ^ (d - f.length), 0)) := by
  have hwall : w.all Char.isDigit = true := List.all_eq_true.mpr hwd
  have hfall : f.all Char.isDigit = true := List.all_eq_true.mpr hfd
  have hwdot : ∀ c ∈ w, (c == '.') = false :=
    fun c hc => isDigit_ne_dot c (hwd c hc)
  have hfdot : ∀ c ∈ f, (c == '.') = false :=
    fun c hc => isDigit_ne_dot c (hfd c hc)
  by_cases hf0 : f = []
  · subst hf0
    rw [if_pos rfl, if_neg (by simp)]
    have htrim : jsTrimList w = w :=
      jsTrimList_eq_self w (fun c hc => isDigit_not_space c (hwd c hc))
    have hsplit : splitOnChar '.' w = [w] := splitOnChar_no_sep '.' w hwdot
    have hpat : decimalPatternMatch w = true := by
      unfold decimalPatternMatch
      rw [hsplit]
      simp [List.isEmpty_iff, hw, hwall]
    simp only [toBaseUnits, htrim, hpat, Bool.not_true, Bool.false_eq_true,
      if_false, hsplit, List.headD, List.drop, List.length_nil,
      Nat.not_lt_zero, Option.some.injEq]
    rw [strToNat_emptyGuard, strToNat_stripLeadingZeros, strToNat_append,
      strToNat_padEnd]
    unfold padEnd
    rw [List.length_append, List.length_replicate]
    simp [strToNat]
  · have hsss : ∀ c ∈ w ++ '.' :: f, isJsSpace c = false := by
      intro c hc
      rcases List.mem_append.mp hc with hc | hc
      · exact isDigit_not_space c (hwd c hc)
      · rcases List.mem_cons.mp hc with rfl | hc
        · decide
        · exact isDigit_not_space c (hfd c hc)
    have htrim : jsTrimList (w ++ '.' :: f) = w ++ '.' :: f :=
      jsTrimList_eq_self _ hsss
    have hsplit : splitOnChar '.' (w ++ '.' :: f) = [w, f] := by
      rw [splitOnChar_append '.' w f hwdot, splitOnChar_no_sep '.' f hfdot]
    have hpat : decimalPatternMatch (w ++ '.' :: f) = true := by
      unfold decimalPatternMatch
      rw [hsplit]
      simp [List.isEmpty_iff, hw, hf0, hwall, hfall]
    rw [if_neg hf0]
    simp only [toBaseUnits, htrim, hpat, Bool.not_true, Bool.false_eq_true,
      if_false, hsplit, List.headD, List.drop, Option.some.injEq]
    by_cases hlt : d < f.length
    · simp only [if_pos hlt]
      rw [strToNat_emptyGuard, strToNat_stripLeadingZeros, strToNat_append,
        strToNat_padEnd]
      have hfc : (f.take d).length = d := by
        rw [List.length_take]
        omega
      unfold padEnd
      rw [List.length_append, List.length_replicate, hfc]
      simp
    · simp only [if_neg hlt]
      rw [strToNat_emptyGuard, strToNat_stripLeadingZeros, strToNat_append,
        strToNat_padEnd]
      unfold padEnd
      rw [List.length_append, List.length_replicate]
      have : f.length + (d - f.length) = d := by omega
      rw [this]

/-- Witness for C4 on the string 1.234 with two decimals: the fraction is
truncated to 23 (value 123) and the warning fires once. -/
theorem toBaseUnits_truncates_and_warns_witness :
    toBaseUnits (if (['2', '3', '4'] : List Char) = [] then ['1']
      else ['1'] ++ '.' :: ['2', '3', '4']) 2 =
      (if 2 < (['2', '3', '4'] : List Char).length then
        some (strToNat ['1'] * 10 ^ 2 + strToNat (['2', '3', '4'].take 2), 1)
      else
        some (strToNat ['1'] * 10 ^ 2 +
          strToNat ['2', '3', '4'] * 10 ^ (2 - (['2', '3', '4'] : List Char).length), 0)) :=
  toBaseUnits_truncates_and_warns ['1'] ['2', '3', '4'] 2 (by decide)
    (by decide) (by decide)

/-! ## Transaction helper model (solanaTransactionHelper.ts lines 130-259) -/

/-- The slice of a connected wallet that `sendTransactionWithFallback`
inspects: its address and the `walletClientType` property. -/
structure HelperWallet where
  address : String
  walletClientType : Option String
deriving Repr, DecidableEq

/-- Observable steps of `sendTransactionWithFallback`, in execution order. -/
inductive HelperStep
  | ensureReady
  | serializeTx
  | attemptSignAndSend
  | attemptSignOnly
  | broadcastRaw
deriving Repr, DecidableEq

/-- Error message of the guard at lines 164-166. -/
def directSigningRemovedMessage : String :=
  "Direct embedded signing no longer supported - wallet helper removed"

/-- Shallow embedding of `sendTransactionWithFallback` (lines 130-259).
Outcomes of the external calls are passed in: `ensureResult` for the optional
`ensureWalletReady` hook, `signAndSend` for the one-call sign-and-broadcast
strategy (`sendWithWallet`), `signOnly` for the wallet sign-only call and
`sendRaw` for `connection.sendRawTransaction` on the signed payload (the
manual path `sendWithManualSigning`).  The result pairs the thrown-or-returned
outcome with the trace of steps performed. -/
def sendTransactionWithFallback (wallet : HelperWallet)
    (useDirectEmbeddedSigning : Bool) (hasEnsureWalletReady : Bool)
    (ensureResult : Except String Unit)
    (signAndSend : Except String String)
    (signOnly : Except String String)
    (sendRaw : String → Except String String) :
    Except String String × List HelperStep :=
  if useDirectEmbeddedSigning || wallet.walletClientType == some "privy" then
    (Except.error directSigningRemovedMessage, [])
  else
    match (if hasEnsureWalletReady then ensureResult else Except.ok ()) with
    | Except.error e =>
      (Except.error e, if hasEnsureWalletReady then [HelperStep.ensureReady] else [])
    | Except.ok () =>
      let t0 := (if hasEnsureWalletReady then [HelperStep.ensureReady] else [])
        ++ [HelperStep.serializeTx]
      match signAndSend with
      | Except.ok sig => (Except.ok sig, t0 ++ [HelperStep.attemptSignAndSend])
      | Except.error _ =>
        let t1 := t0 ++ [HelperStep.attemptSignAndSend, HelperStep.attemptSignOnly]
        match signOnly with
        | Except.ok signedTx => (sendRaw signedTx, t1 ++ [HelperStep.broadcastRaw])
        | Except.error e => (Except.error e, t1)

/-- C10: for a wallet whose `walletClientType` is the string `privy`, or for
a call with `useDirectEmbeddedSigning` set, `sendTransactionWithFallback`
throws the fixed removal error immediately: no wallet-readiness check, no
serialization and neither submission strategy is performed (empty trace). -/
theorem sendTransactionWithFallback_privy_guard (wallet : HelperWallet)
    (useDirectEmbeddedSigning hasEnsureWalletReady : Bool)
    (ensureResult : Except String Unit) (signAndSend : Except String String)
    (signOnly : Except String String) (sendRaw : String → Except String String)
    (h : wallet.walletClientType = some "privy" ∨
      useDirectEmbeddedSigning = true) :
    sendTransactionWithFallback wallet useDirectEmbeddedSigning
      hasEnsureWalletReady ensureResult signAndSend signOnly sendRaw =
      (Except.error directSigningRemovedMessage, []) := by
  unfold sendTransactionWithFallback
  rcases h with h | h
  · rw [if_pos]
    rw [h]
    simp
  · rw [if_pos]
    rw [h]
    simp

/-- Witness for C10 on a Privy-flagged wallet with both strategies set up to
succeed: the guard still throws with an empty trace. -/
theorem sendTransactionWithFallback_privy_guard_witness :
    sendTransactionWithFallback ⟨"addr1", some "privy"⟩ false true
      (Except.ok ()) (Except.ok "sig1") (Except.ok "tx1")
      (fun _ => Except.ok "sig2") =
      (Except.error directSigningRemovedMessage, []) :=
  sendTransactionWithFallback_privy_guard ⟨"addr1", some "privy"⟩ false true
    (Except.ok ()) (Except.ok "sig1") (Except.ok "tx1")
    (fun _ => Except.ok "sig2") (Or.inl rfl)

/-- Counterexample to C2 as stated: for a wallet flagged `privy` (with both
strategies set up to succeed) the helper does not attempt the atomic
sign-and-send strategy at all and does not return its signature — it throws
the removal error instead. -/
theorem sendTransactionWithFallback_not_universal :
    (sendTransactionWithFallback ⟨"addr2", some "privy"⟩ false false
        (Except.ok ()) (Except.ok "sigA") (Except.ok "txA")
        (fun _ => Except.ok "sigB")).1 ≠ Except.ok "sigA" ∧
    HelperStep.attemptSignAndSend ∉
      (sendTransactionWithFallback ⟨"addr2", some "privy"⟩ false false
        (Except.ok ()) (Except.ok "sigA") (Except.ok "txA")
        (fun _ => Except.ok "sigB")).2 := by
  have h : sendTransactionWithFallback ⟨"addr2", some "privy"⟩ false false
      (Except.ok ()) (Except.ok "sigA") (Except.ok "txA")
      (fun _ => Except.ok "sigB") =
      (Except.error directSigningRemovedMessage, []) := rfl
  rw [h]
  constructor
  · simp
  · simp

/-- C2 (amended): for every wallet not flagged as a Privy embedded wallet and
with direct embedded signing not requested (and the optional readiness hook
not failing), `sendTransactionWithFallback` first attempts the atomic
sign-and-send strategy and returns its signature on success; on any failure
of that attempt it falls back to the sign-only strategy followed by an RPC
broadcast of the signed payload, returning that result, with the atomic
attempt always traced before the sign-only attempt. -/
theorem sendTransactionWithFallback_fallback_order (wallet : HelperWallet)
    (useDirectEmbeddedSigning hasEnsureWalletReady : Bool)
    (ensureResult : Except String Unit) (signAndSend : Except String String)
    (signOnly : Except String String) (sendRaw : String → Except String String)
    (hprivy : wallet.walletClientType ≠ some "privy")
    (hdirect : useDirectEmbeddedSigning = false)
    (hens : hasEnsureWalletReady = true → ensureResult = Except.ok ()) :
    (∀ sig, signAndSend = Except.ok sig →
      sendTransactionWithFallback wallet useDirectEmbeddedSigning
        hasEnsureWalletReady ensureResult signAndSend signOnly sendRaw =
        (Except.ok sig,
          (if hasEnsureWalletReady then [HelperStep.ensureReady] else []) ++
            [HelperStep.serializeTx, HelperStep.attemptSignAndSend])) ∧
    (∀ err tx, signAndSend = Except.error err → signOnly = Except.ok tx →
      sendTransactionWithFallback wallet useDirectEmbeddedSigning
        hasEnsureWalletReady ensureResult signAndSend signOnly sendRaw =
        (sendRaw tx,
          (if hasEnsureWalletReady then [HelperStep.ensureReady] else []) ++
            [HelperStep.serializeTx, HelperStep.attemptSignAndSend,
              HelperStep.attemptSignOnly, HelperStep.broadcastRaw])) ∧
    (∀ err e2, signAndSend = Except.error err → signOnly = Except.error e2 →
      sendTransactionWithFallback wallet useDirectEmbeddedSigning
        hasEnsureWalletReady ensureResult signAndSend signOnly sendRaw =
        (Except.error e2,
          (if hasEnsureWalletReady then [HelperStep.ensureReady] else []) ++
            [HelperStep.serializeTx, HelperStep.attemptSignAndSend,
              HelperStep.attemptSignOnly])) := by
  have hguard : (useDirectEmbeddedSigning ||
      wallet.walletClientType == some "privy") = false := by
    rw [hdirect]
    simp [hprivy]
  have hensEq : (if hasEnsureWalletReady then ensureResult
      else Except.ok ()) = Except.ok () := by
    cases hb : hasEnsureWalletReady with
    | true => simpa using hens hb
    | false => simp
  refine ⟨?_, ?_, ?_⟩
  · intro sig hsig
    unfold sendTransactionWithFallback
    rw [if_neg (by simp [hguard])]
    rw [hensEq, hsig]
    simp
  · intro err tx herr htx
    unfold sendTransactionWithFallback
    rw [if_neg (by simp [hguard])]
    rw [hensEq, herr, htx]
    simp
  · intro err e2 herr he2
    unfold sendTransactionWithFallback
    rw [if_neg (by simp [hguard])]
    rw [hensEq, herr, he2]
    simp

/-- Witness for the amended C2: a non-Privy wallet whose atomic attempt
fails falls back to sign-only plus broadcast and returns the broadcast
signature. -/
theorem sendTransactionWithFallback_fallback_order_witness :
    sendTransactionWithFallback ⟨"addr3", some "metamask"⟩ false true
      (Except.ok ()) (Except.error "rejected") (Except.ok "txC")
      (fun tx => Except.ok ("sig-" ++ tx)) =
      (Except.ok "sig-txC",
        [HelperStep.ensureReady, HelperStep.serializeTx,
          HelperStep.attemptSignAndSend, HelperStep.attemptSignOnly,
          HelperStep.broadcastRaw]) :=
  (sendTransactionWithFallback_fallback_order ⟨"addr3", some "metamask"⟩
    false true (Except.ok ()) (Except.error "rejected") (Except.ok "txC")
    (fun tx => Except.ok ("sig-" ++ tx)) (by simp) rfl
    (fun _ => rfl)).2.1 "rejected" "txC" rfl rfl

/-! ## Instruction submission model (PoolBridge.tsx lines 1236-1372) -/

/-- Whether `needle` is a prefix of `haystack` (character lists). -/
def startsWith : List Char → List Char → Bool
  | [], _ => true
  | _ :: _, [] => false
  | c :: cs, d :: ds => c == d && startsWith cs ds

/-- Whether `needle` occurs contiguously inside `haystack`. -/
def containsSub (needle : List Char) : List Char → Bool
  | [] => startsWith needle []
  | d :: ds => startsWith needle (d :: ds) || containsSub needle ds

/-- Case-insensitive containment test of the regular expression
`/timed out after/i` used at line 1308. -/
def timedOutPattern (msg : String) : Bool :=
  containsSub ("timed out after".data.map Char.toLower)
    (msg.data.map Char.toLower)

/-- Shallow embedding of the funding-path `sendInstructions` closure
(lines 1236-1372).  The wallet lookup, the `signAndSendTransaction` outcome
(already formatted to its message on failure), the outcome of the optional
`onTimeoutCheck` callback and the confirmation outcome are inputs;
`confirmResult` is `ok none` for a clean confirmation, `ok (some d)` when the
confirmation reports a transaction error `d`, and `error m` when the
confirmation call itself throws `m`. -/
def sendInstructions (walletFound : Bool)
    (sendResult : Except String String)
    (onTimeoutCheck : Option (Except String Bool))
    (confirmResult : Except String (Option String)) : Except String String :=
  if !walletFound then
    Except.error "Could not find Privy Solana wallet for address"
  else
    match sendResult with
    | Except.error msg =>
      match onTimeoutCheck with
      | some check =>
        if timedOutPattern msg then
          match check with
          | Except.ok true => Except.ok "timed-out"
          | Except.ok false => Except.error msg
          | Except.error _ => Except.error msg
        else Except.error msg
      | none => Except.error msg
    | Except.ok signature =>
      match confirmResult with
      | Except.ok none => Except.ok signature
      | Except.ok (some errDetails) =>
        Except.error ("Transaction failed: " ++ errDetails)
      | Except.error m => Except.error m

/-- C3: when the sign-and-send call fails with a message matching
`timed out after` and a recovery callback is supplied, `sendInstructions`
returns the sentinel string `timed-out` if the callback reports the on-chain
state as confirmed, and propagates the original error message if the callback
returns false or itself fails. -/
theorem sendInstructions_timeout_recovery (msg : String)
    (check : Except String Bool)
    (confirmResult : Except String (Option String))
    (hpat : timedOutPattern msg = true) :
    (check = Except.ok true →
      sendInstructions true (Except.error msg) (some check) confirmResult =
        Except.ok "timed-out") ∧
    (check = Except.ok false →
      sendInstructions true (Except.error msg) (some check) confirmResult =
        Except.error msg) ∧
    (∀ e, check = Except.error e →
      sendInstructions true (Except.error msg) (some check) confirmResult =
        Except.error msg) := by
  refine ⟨?_, ?_, ?_⟩
  · intro hc
    subst hc
    simp [sendInstructions, hpat]
  · intro hc
    subst hc
    simp [sendInstructions, hpat]
  · intro e hc
    subst hc
    simp [sendInstructions, hpat]

/-- Witness for C3 at a concrete timed-out message with a succeeding recovery
check: the sentinel is returned. -/
theorem sendInstructions_timeout_recovery_witness :
    timedOutPattern "Create pool ATA: sendTransaction timed out after 181 seconds" = true ∧
    sendInstructions true
      (Except.error "Create pool ATA: sendTransaction timed out after 181 seconds")
      (some (Except.ok true)) (Except.ok none) = Except.ok "timed-out" :=
  ⟨by decide,
    (sendInstructions_timeout_recovery
      "Create pool ATA: sendTransaction timed out after 181 seconds"
      (Except.ok true) (Except.ok none) (by decide)).1 rfl⟩

/-! ## Wallet resolver model (PoolBridge.tsx lines 220-248, 723-757) -/

/-- A connected wallet as seen by `findWalletForAddresses`: only the address
is inspected. -/
structure WalletInfo where
  address : String
deriving Repr, DecidableEq

/-- Linked-account metadata stored in `accountMetadataByAddress`. -/
structure WalletMetadata where
  walletClientType : Option String
  provider : Option String
  embedded : Bool
deriving Repr, DecidableEq

/-- First wallet matching a preferred address, scanning the preferred list in
order and skipping falsy (absent or empty) candidates (lines 727-733). -/
def firstPreferredMatch (solanaWallets : List WalletInfo) :
    List (Option String) → Option WalletInfo
  | [] => none
  | none :: rest => firstPreferredMatch solanaWallets rest
  | some c :: rest =>
    if c = "" then firstPreferredMatch solanaWallets rest
    else
      match solanaWallets.find? (fun entry => entry.address == c) with
      | some w => some w
      | none => firstPreferredMatch solanaWallets rest

/-- Shallow embedding of `findWalletForAddresses` (lines 723-757):
preferred-address match, then a wallet whose linked-account metadata flags it
as embedded, then the auth hook's active wallet, then the head of the
connected list. -/
def findWalletForAddresses (solanaWallets : List WalletInfo)
    (metadataOf : String → Option WalletMetadata)
    (authActiveWallet : Option WalletInfo)
    (preferred : List (Option String)) : Option WalletInfo :=
  match firstPreferredMatch solanaWallets preferred with
  | some w => some w
  | none =>
    match solanaWallets.find?
        (fun entry => (metadataOf entry.address).map (·.embedded) == some true) with
    | some w => some w
    | none =>
      match authActiveWallet with
      | some w => some w
      | none => solanaWallets.head?

/-- Counterexample to C5 as stated: with no preferred match and no
embedded-flagged wallet, the resolver returns the auth hook's active wallet
even when it is not the first (nor any) available connected wallet. -/
theorem findWalletForAddresses_not_first_available :
    findWalletForAddresses [⟨"w1"⟩] (fun _ => none) (some ⟨"w2"⟩) [] =
      some ⟨"w2"⟩ ∧
    some (⟨"w2"⟩ : WalletInfo) ≠ ([⟨"w1"⟩] : List WalletInfo).head? ∧
    (⟨"w2"⟩ : WalletInfo) ∉ ([⟨"w1"⟩] : List WalletInfo) := by
  refine ⟨rfl, ?_, ?_⟩
  · simp
  · simp

/-- C5 (amended): `findWalletForAddresses` resolves in exactly this
precedence order — first connected wallet matching the preferred addresses in
list order, else the first wallet whose linked-account metadata flags it as
provider-embedded, else the auth hook's active wallet when present, else the
first available connected wallet. -/
theorem findWalletForAddresses_precedence (solanaWallets : List WalletInfo)
    (metadataOf : String → Option WalletMetadata)
    (authActiveWallet : Option WalletInfo)
    (preferred : List (Option String)) :
    (∀ w, firstPreferredMatch solanaWallets preferred = some w →
      findWalletForAddresses solanaWallets metadataOf authActiveWallet
        preferred = some w) ∧
    (firstPreferredMatch solanaWallets preferred = none →
      (∀ w, solanaWallets.find?
          (fun entry =>
            (metadataOf entry.address).map (·.embedded) == some true) =
          some w →
        findWalletForAddresses solanaWallets metadataOf authActiveWallet
          preferred = some w) ∧
      (solanaWallets.find?
          (fun entry =>
            (metadataOf entry.address).map (·.embedded) == some true) =
          none →
        (∀ w, authActiveWallet = some w →
          findWalletForAddresses solanaWallets metadataOf authActiveWallet
            preferred = some w) ∧
        (authActiveWallet = none →
          findWalletForAddresses solanaWallets metadataOf authActiveWallet
            preferred = solanaWallets.head?))) := by
  refine ⟨?_, ?_⟩
  · intro w hw
    simp [findWalletForAddresses, hw]
  · intro hnone
    refine ⟨?_, ?_⟩
    · intro w hw
      simp [findWalletForAddresses, hnone, hw]
    · intro hemb
      refine ⟨?_, ?_⟩
      · intro w hw
        simp [findWalletForAddresses, hnone, hemb, hw]
      · intro hact
        simp [findWalletForAddresses, hnone, hemb, hact]

/-- Witness for the amended C5: an explicit preferred-address match wins. -/
theorem findWalletForAddresses_precedence_witness :
    findWalletForAddresses [⟨"a"⟩, ⟨"b"⟩] (fun _ => none) none
      [some "b", some "a"] = some ⟨"b"⟩ :=
  (findWalletForAddresses_precedence [⟨"a"⟩, ⟨"b"⟩] (fun _ => none) none
    [some "b", some "a"]).1 ⟨"b"⟩ (by decide)

/-! ## Parameter parsing model (PoolBridge.tsx lines 37, 40-63, 163-194,
2051-2063) -/

/-- The two allowed actions (`ALLOWED_ACTIONS`, line 37). -/
inductive BridgeAction
  | fund_pool
  | withdraw_pool
deriving Repr, DecidableEq

/-- The validated request (`BridgeParams`, lines 50-63), with the JS number
kept as a rational. -/
structure BridgeParams where
  action : BridgeAction
  worldId : String
  tokenMint : String
  amount : Rat
  amountRaw : String
  userAddress : String
  operationId : String
  poolAddress : Option String
  recipientAddress : Option String
  adminAddress : Option String
  reason : Option String
  returnUrl : Option String
deriving Repr, DecidableEq

/-- `URLSearchParams.get`: the first value recorded for the key, or null.
The query string is modelled as the decoded association list of its
key/value pairs. -/
def getParam (query : List (String × String)) (key : String) :
    Option String :=
  (query.find? (fun p => p.1 == key)).map (·.2)

/-- Shallow embedding of `parseParams` (lines 163-194).  `jsNumber` stands
for the JavaScript `Number(...)` conversion: `some q` for a finite result and
`none` for `NaN` or an infinity, so `Number.isFinite` is `isSome`. -/
def parseParams (jsNumber : String → Option Rat)
    (query : List (String × String)) : Option BridgeParams :=
  match getParam query "action" with
  | none => none
  | some action =>
    if ¬(action = "fund_pool" ∨ action = "withdraw_pool") then none
    else
      match getParam query "worldId", getParam query "tokenMint",
        getParam query "amount", getParam query "userAddress",
        getParam query "operationId" with
      | some worldId, some tokenMint, some amountStr, some userAddress,
        some operationId =>
        if worldId = "" ∨ tokenMint = "" ∨ amountStr = "" ∨
            userAddress = "" ∨ operationId = "" then none
        else
          match jsNumber amountStr with
          | none => none
          | some amount =>
            if amount ≤ 0 then none
            else
              some
                { action :=
                    if action = "fund_pool" then BridgeAction.fund_pool
                    else BridgeAction.withdraw_pool
                  worldId := worldId
                  tokenMint := tokenMint
                  amount := amount
                  amountRaw := amountStr
                  userAddress := userAddress
                  operationId := operationId
                  poolAddress := getParam query "poolAddress"
                  recipientAddress := getParam query "recipientAddress"
                  adminAddress := getParam query "adminAddress"
                  reason := getParam query "reason"
                  returnUrl := getParam query "returnUrl" }
      | _, _, _, _, _ => none

/-- The two top-level page views relevant to parameter validation: the fixed
missing-parameters failure card (lines 2051-2063) or the bridge page. -/
inductive PageView
  | missingParams (message : String)
  | bridge
deriving Repr, DecidableEq

/-- Fixed user-facing message of the failure card (lines 2056-2059). -/
def MISSING_PARAMS_MESSAGE : String :=
  "Missing or invalid parameters. Please relaunch the funding flow from the WAGUS app."

/-- The early-return render gate of the `PoolBridge` component: with no
parsed params the fixed failure card is rendered. -/
def renderGate (params : Option BridgeParams) : PageView :=
  match params with
  | none => PageView.missingParams MISSING_PARAMS_MESSAGE
  | some _ => PageView.bridge

/-- A successful parse certifies that all required parameters are present,
the action is allowed and the amount is a finite positive number. -/
theorem parseParams_some_implies (jsNumber : String → Option Rat)
    (query : List (String × String)) (p : BridgeParams)
    (h : parseParams jsNumber query = some p) :
    (∃ a, getParam query "action" = some a ∧
      (a = "fund_pool" ∨ a = "withdraw_pool")) ∧
    (∃ w, getParam query "worldId" = some w) ∧
    (∃ t, getParam query "tokenMint" = some t) ∧
    (∃ u, getParam query "userAddress" = some u) ∧
    (∃ o, getParam query "operationId" = some o) ∧
    (∃ s v, getParam query "amount" = some s ∧ jsNumber s = some v ∧ 0 < v) := by
  unfold parseParams at h
  split at h
  · exact absurd h (by simp)
  · next a hact =>
    split at h
    · exact absurd h (by simp)
    · next hcond =>
      rw [not_not] at hcond
      split at h
      · next worldId tokenMint amountStr userAddress operationId hw ht hs hu ho =>
        split at h
        · exact absurd h (by simp)
        · next hnonempty =>
          split at h
          · exact absurd h (by simp)
          · next v hv =>
            split at h
            · exact absurd h (by simp)
            · next hvpos =>
              exact ⟨⟨a, hact, hcond⟩, ⟨worldId, hw⟩, ⟨tokenMint, ht⟩,
                ⟨userAddress, hu⟩, ⟨operationId, ho⟩,
                ⟨amountStr, v, hs, hv, lt_of_not_le hvpos⟩⟩
      · exact absurd h (by simp)

/-- C8: whenever a required parameter (action, worldId, tokenMint, amount,
userAddress, operationId) is absent from the query, or the action is not one
of `fund_pool`/`withdraw_pool`, or the amount does not convert to a finite
positive number, `parseParams` returns null and the page renders the fixed
missing-parameters failure card with its fixed user-facing message. -/
theorem parseParams_missing_renders_failure
    (jsNumber : String → Option Rat) (query : List (String × String))
    (h : (getParam query "action" = none ∨
          getParam query "worldId" = none ∨
          getParam query "tokenMint" = none ∨
          getParam query "amount" = none ∨
          getParam query "userAddress" = none ∨
          getParam query "operationId" = none) ∨
         (∃ a, getParam query "action" = some a ∧
            a ≠ "fund_pool" ∧ a ≠ "withdraw_pool") ∨
         (∃ s, getParam query "amount" = some s ∧
            (jsNumber s = none ∨ ∃ v, jsNumber s = some v ∧ v ≤ 0))) :
    parseParams jsNumber query = none ∧
    renderGate (parseParams jsNumber query) =
      PageView.missingParams MISSING_PARAMS_MESSAGE := by
  have hp : parseParams jsNumber query = none := by
    cases hppv : parseParams jsNumber query with
    | none => rfl
    | some p =>
      exfalso
      obtain ⟨⟨a, ha, hallowed⟩, ⟨w, hw⟩, ⟨t, ht⟩, ⟨u, hu⟩, ⟨o, ho⟩,
        ⟨s, v, hs, hv, hvpos⟩⟩ := parseParams_some_implies jsNumber query p hppv
      rcases h with habs | ⟨a2, ha2, hfp, hwp⟩ | ⟨s2, hs2, hbad⟩
      · rcases habs with hx | hx | hx | hx | hx | hx <;> simp_all
      · rw [ha2] at ha
        injection ha with ha
        subst ha
        rcases hallowed with hq | hq
        · exact hfp hq
        · exact hwp hq
      · rw [hs2] at hs
        injection hs with hs
        subst hs
        rcases hbad with hb | ⟨v2, hv2, hle⟩
        · rw [hb] at hv
          exact absurd hv (by simp)
        · rw [hv2] at hv
          injection hv with hv
          subst hv
          exact absurd hvpos (not_lt_of_le hle)
  exact ⟨hp, by rw [hp]; rfl⟩

/-- Witness for C8: a query carrying only a worldId fails the parse and
renders the failure card. -/
theorem parseParams_missing_renders_failure_witness :
    parseParams (fun _ => none) [("worldId", "earth")] = none ∧
    renderGate (parseParams (fun _ => none) [("worldId", "earth")]) =
      PageView.missingParams MISSING_PARAMS_MESSAGE :=
  parseParams_missing_renders_failure (fun _ => none) [("worldId", "earth")]
    (Or.inl (Or.inl (by decide)))

/-! ## Bridge status model (PoolBridge.tsx lines 42-48, 915-1001, 1037-1512,
2007-2018) -/

/-- The `BridgeStatus` union type (lines 42-48). -/
inductive BridgeStatus
  | initializing
  | awaitingAuth
  | ready
  | processing
  | success
  | failed
deriving Repr, DecidableEq

/-- Position of a status in the linear order
initializing → awaiting-auth → ready → processing → (success | failed). -/
def statusRank : BridgeStatus → Nat
  | .initializing => 0
  | .awaitingAuth => 1
  | .ready => 2
  | .processing => 3
  | .success => 4
  | .failed => 4

/-- Page-session state relevant to status transitions: the current status,
whether `parseParams` produced a request, whether the RPC URL is configured,
and whether a fund/withdraw operation is in flight. -/
structure ComponentState where
  status : BridgeStatus
  paramsValid : Bool
  rpcConfigured : Bool
  opInFlight : Bool
deriving Repr, DecidableEq

/-- Status-setting occurrences in the component, each modelling one code
path: the params effect (lines 915-932), the auth/wallet effect with its
current `ready`/`authenticated`/wallet-count inputs (lines 944-1001), the
RPC-configuration effect (lines 2007-2018), the early failure returns of
`executeFunding`/`executeWithdrawal`, the `setStatus("processing")` start,
and the terminal completion of the in-flight operation. -/
inductive BridgeEvent
  | paramsEffect
  | authEffect (privyReady authenticated : Bool) (walletCount : Nat)
  | rpcEffect
  | executeEarlyFailure
  | executeStart
  | executeFinish (ok : Bool)
deriving Repr, DecidableEq

/-- One status-setting step, with each branch translated from the
corresponding `setStatus` call site.  Execution events are gated the way the
UI gates them: the authorize button (and hence an execute call) exists only
in the `ready` state, and a completion only lands for an in-flight
operation. -/
def bridgeStep (s : ComponentState) (e : BridgeEvent) : ComponentState :=
  match e with
  | .paramsEffect =>
    if s.paramsValid then { s with status := .awaitingAuth }
    else { s with status := .failed }
  | .authEffect privyReady authenticated walletCount =>
    if !s.paramsValid then s
    else if !privyReady then { s with status := .initializing }
    else if !authenticated then { s with status := .awaitingAuth }
    else if walletCount = 0 then { s with status := .initializing }
    else { s with status := .ready }
  | .rpcEffect =>
    if s.rpcConfigured then s else { s with status := .failed }
  | .executeEarlyFailure =>
    if s.status = .ready ∧ s.paramsValid then { s with status := .failed }
    else s
  | .executeStart =>
    if s.status = .ready ∧ s.paramsValid ∧ s.rpcConfigured then
      { s with status := .processing, opInFlight := true }
    else s
  | .executeFinish ok =>
    if s.opInFlight then
      { s with
        status := (if ok then BridgeStatus.success else BridgeStatus.failed)
        opInFlight := false }
    else s

/-- Fold a sequence of status-setting events. -/
def runBridge (s0 : ComponentState) (events : List BridgeEvent) :
    ComponentState :=
  events.foldl bridgeStep s0

/-- State at page load. -/
def initialComponentState (paramsValid rpcConfigured : Bool) :
    ComponentState :=
  { status := .initializing, paramsValid := paramsValid,
    rpcConfigured := rpcConfigured, opInFlight := false }

/-- Counterexample to C9 as stated: on a page load with valid params, the
params effect moves the status to awaiting-auth, and the auth effect firing
while the provider is not ready moves it back to initializing — a strictly
backward transition within a single page load. -/
theorem bridgeStatus_moves_backward :
    (runBridge (initialComponentState true true)
      [BridgeEvent.paramsEffect]).status = BridgeStatus.awaitingAuth ∧
    (runBridge (initialComponentState true true)
      [BridgeEvent.paramsEffect,
        BridgeEvent.authEffect false false 0]).status =
      BridgeStatus.initializing ∧
    statusRank BridgeStatus.initializing <
      statusRank BridgeStatus.awaitingAuth := by
  decide

/-- C9 (amended): outside the params and auth/wallet initialization effects
— which may reset the status backward to initializing, awaiting-auth or
ready whenever readiness, authentication or wallet availability regress —
every status-setting event moves the status forward (never decreasing its
rank) along initializing → awaiting-auth → ready → processing →
(success | failed). -/
theorem bridgeStatus_forward_outside_init_effects (s : ComponentState)
    (e : BridgeEvent)
    (hauth : ∀ (r a : Bool) (n : Nat), e ≠ BridgeEvent.authEffect r a n)
    (hparams : e ≠ BridgeEvent.paramsEffect) :
    statusRank s.status ≤ statusRank (bridgeStep s e).status := by
  cases e with
  | paramsEffect => exact absurd rfl hparams
  | authEffect r a n => exact absurd rfl (hauth r a n)
  | rpcEffect =>
    rcases s with ⟨st, pv, rc, fl⟩
    cases rc <;> cases st <;> simp [bridgeStep, statusRank]
  | executeEarlyFailure =>
    rcases s with ⟨st, pv, rc, fl⟩
    cases pv <;> cases st <;> simp [bridgeStep, statusRank]
  | executeStart =>
    rcases s with ⟨st, pv, rc, fl⟩
    cases pv <;> cases rc <;> cases st <;> simp [bridgeStep, statusRank]
  | executeFinish ok =>
    rcases s with ⟨st, pv, rc, fl⟩
    cases fl <;> cases ok <;> cases st <;> simp [bridgeStep, statusRank]

/-- Witness for the amended C9 at a concrete state and event. -/
theorem bridgeStatus_forward_outside_init_effects_witness :
    statusRank (initialComponentState true true).status ≤
      statusRank (bridgeStep (initialComponentState true true)
        BridgeEvent.rpcEffect).status :=
  bridgeStatus_forward_outside_init_effects (initialComponentState true true)
    BridgeEvent.rpcEffect (fun r a n => by simp) (by simp)
